import Mathlib

/-!
A shallow embedding of the parsing-and-validation engine of the args
command-line library (single header `args.hxx`).  Strings are modelled as
`List Char`; the polymorphic declaration hierarchy (`Base` / `NamedBase` /
`FlagBase` / `ValueFlagBase` / `PositionalBase` / `Group`) is modelled as a
closed tree type `Node`; value types are instantiated at `std::string`
(the default `ValueReader<std::string>` simply assigns the raw text, so a
`Reader` never fails for this instantiation, matching the specialisation
at line 1430 of args.hxx).  Matched nodes are addressed by paths (lists of
child indices), playing the role of the `FlagBase*` / `PositionalBase*`
pointers the C++ returns: the pointer identifies a node in the tree, the
path does the same.  `ParseArgs` mutates the tree in place and throws; here
every operation returns the updated tree together with an outcome, so the
tree state at the moment an exception propagates is observable, exactly as
it is on the C++ object.
-/

/-- Strings of the C++ source, modelled as lists of characters. -/
abbrev Str := List Char

/-- std::string::find of a substring: the first index at which `needle`
occurs in `hay`, or none (npos).  For an empty needle this is index 0,
as for std::string::find. -/
def findSub (hay needle : Str) : Option Nat :=
  if needle.isPrefixOf hay then some 0
  else
    match hay with
    | [] => none
    | _ :: t => (findSub t needle).map (· + 1)

/-- The Matcher class (args.hxx:246): an immutable set of short-flag
characters and long-flag strings. -/
structure Matcher where
  shortFlags : List Char
  longFlags : List Str

/-- A flag token handed to `Matcher::Match`: the C++ has one overload for
`char` (short flags) and one for `std::string` (long flags) with identical
logic; this tag selects the overload. -/
inductive FlagArg where
  | short (c : Char)
  | long (s : Str)

/-- The text the C++ streams into error messages for the flag: the string
itself, or `std::string(1, arg)` for a char. -/
def FlagArg.text : FlagArg → Str
  | .short c => [c]
  | .long s => s

/-- Matcher::Match (args.hxx:294/301): exact membership in the respective
set. -/
def Matcher.MatchEither : Matcher → FlagArg → Bool
  | m, .short c => m.shortFlags.contains c
  | m, .long s => m.longFlags.contains s

/-- Whether a Flag is a plain `Flag` or a `HelpFlag` (which throws `Help`
from `Match`, args.hxx:1340). -/
inductive FKind where
  | plain
  | help
deriving DecidableEq

/-- The stock validators of Group::Validators (args.hxx:745). -/
inductive Validator where
  | xor
  | atLeastOne
  | atMostOne
  | all
  | allOrNone
  | allChildGroups
  | dontCare
  | careTooMuch
  | none
deriving DecidableEq

/-- The declaration tree.  Leaves carry exactly the mutable state of the
corresponding args.hxx classes (value types instantiated at string):
`flag` is Flag/HelpFlag, `valueFlag` is ValueFlag<string>, `mapFlag` is
MapFlag<string,string> (carrying its name, used in the MapError message),
`positional` is Positional<string>, `mapPositional` is
MapPositional<string,string>, `positionalList` is PositionalList<string>,
and `group` is Group with its validator and ordered children. -/
inductive Node where
  | flag (m : Matcher) (kind : FKind) (extraError : Bool) (kickout : Bool) (matched : Bool)
  | valueFlag (m : Matcher) (extraError : Bool) (kickout : Bool) (matched : Bool) (value : Str)
  | mapFlag (name : Str) (m : Matcher) (map : List (Str × Str)) (extraError : Bool)
      (kickout : Bool) (matched : Bool) (value : Str)
  | positional (kickout : Bool) (matched : Bool) (ready : Bool) (value : Str)
  | mapPositional (name : Str) (map : List (Str × Str)) (kickout : Bool) (matched : Bool)
      (ready : Bool) (value : Str)
  | positionalList (kickout : Bool) (matched : Bool) (ready : Bool) (values : List Str)
  | group (validator : Validator) (children : List Node)

/-- The error taxonomy (args.hxx:142-194).  In the C++ hierarchy MapError
and ExtraError are subclasses of ParseError; here each kind is a separate
constructor, so a catch that distinguishes them is a match on the
constructor. -/
inductive Err where
  | parseError (problem : Str)
  | extraError (problem : Str)
  | mapError (problem : Str)
  | validationError (problem : Str)
  | help (flag : Str)
deriving DecidableEq

/-- map.find miss / hit for the externally supplied map of a MapFlag /
MapPositional (exact key equality, as for std::unordered_map). -/
def lookupMap : List (Str × Str) → Str → Option Str
  | [], _ => none
  | (k, t) :: m, key => if k == key then some t else lookupMap m key

/-- Message "Flag could not be matched: <arg>" (args.hxx:1185). -/
def msgNoMatch (arg : Str) : Str :=
  "Flag could not be matched: ".data ++ arg

/-- Message "Flag could not be matched: '<c>'" (short-flag form, args.hxx:1243). -/
def msgNoMatchShort (c : Char) : Str :=
  "Flag could not be matched: '".data ++ [c] ++ "'".data

/-- Message "Flag '<arg>' requires an argument but received none" (args.hxx:1157). -/
def msgRequiresArg (arg : Str) : Str :=
  "Flag '".data ++ arg ++ "' requires an argument but received none".data

/-- Message "Flag '<arg>' was passed a joined argument, but these are disallowed". -/
def msgJoined (arg : Str) : Str :=
  "Flag '".data ++ arg ++ "' was passed a joined argument, but these are disallowed".data

/-- Message "Flag '<arg>' was passed a separate argument, but these are disallowed". -/
def msgSeparate (arg : Str) : Str :=
  "Flag '".data ++ arg ++ "' was passed a separate argument, but these are disallowed".data

/-- Message "Passed an argument into a non-argument flag: <chunk>" (args.hxx:1174). -/
def msgNonArgFlag (chunk : Str) : Str :=
  "Passed an argument into a non-argument flag: ".data ++ chunk

/-- Message "Passed in argument, but no positional arguments were ready to receive
it: <chunk>" (args.hxx:1261). -/
def msgNoPositional (chunk : Str) : Str :=
  "Passed in argument, but no positional arguments were ready to receive it: ".data ++ chunk

/-- Message "Flag '<arg>' was passed multiple times, but is only allowed to be
passed once" (args.hxx:436). -/
def msgExtra (arg : Str) : Str :=
  "Flag '".data ++ arg ++ "' was passed multiple times, but is only allowed to be passed once".data

/-- Message "Could not find key '<key>' in map for arg '<name>'" (args.hxx:1544). -/
def msgMapMiss (key name : Str) : Str :=
  "Could not find key '".data ++ key ++ "' in map for arg '".data ++ name ++ "'".data

/-- Message "Group validation failed somewhere!" (args.hxx:1269). -/
def msgValidation : Str :=
  "Group validation failed somewhere!".data

mutual

/-- Base::Matched / Group::Matched.  For leaves this reads the stored
`matched` field (Base::Matched, args.hxx:354); for a Group it evaluates the
group's validator on the group itself (Group::Matched, args.hxx:671), with
the dispatch on the stock validators of args.hxx:745 inlined:
MatchedChildren (`matchedCount`) counts immediate children whose own
Matched() is true, and AllChildGroups (`groupsMatched`) checks every
immediate child that is itself a Group. -/
def MatchedQ : Node → Bool
  | .flag _ _ _ _ mtd => mtd
  | .valueFlag _ _ _ mtd _ => mtd
  | .mapFlag _ _ _ _ _ mtd _ => mtd
  | .positional _ mtd _ _ => mtd
  | .mapPositional _ _ _ mtd _ _ => mtd
  | .positionalList _ mtd _ _ => mtd
  | .group v cs =>
      match v with
      | .xor => matchedCount cs == 1
      | .atLeastOne => matchedCount cs ≥ 1
      | .atMostOne => matchedCount cs ≤ 1
      | .all => cs.length == matchedCount cs
      | .allOrNone => (cs.length == matchedCount cs) || (matchedCount cs == 0)
      | .allChildGroups => groupsMatched cs
      | .dontCare => true
      | .careTooMuch => false
      | .none => matchedCount cs == 0

/-- Group::MatchedChildren (args.hxx:656): how many immediate children
report Matched(). -/
def matchedCount : List Node → Nat
  | [] => 0
  | c :: cs => (if MatchedQ c then 1 else 0) + matchedCount cs

/-- The loop body of Validators::AllChildGroups (args.hxx:772): false as
soon as an immediate child that is a Group fails its own Matched(). -/
def groupsMatched : List Node → Bool
  | [] => true
  | c :: cs =>
      (match c with
       | .group _ _ => MatchedQ c
       | _ => true) && groupsMatched cs

end

/-- A group's validator applied to its children — Group::Matched where the
group is `Group(validator)` with children `cs`. -/
def validate (v : Validator) (cs : List Node) : Bool :=
  MatchedQ (.group v cs)

/-- Result of Group::Match (args.hxx:548/574) on a node: the C++ returns a
`FlagBase*` after mutating the matched flag (or throws).  `hit` carries the
updated tree, the path of the matched node (the pointer), and the two
facts the parser reads off that pointer: whether it is a ValueFlagBase and
its KickOut flag.  `miss` (null pointer) leaves the tree untouched. -/
inductive GMRes where
  | thrown (tree : Node) (e : Err)
  | hit (tree : Node) (path : List Nat) (isVal : Bool) (kick : Bool)
  | miss

/-- Result of the search across a child list, carrying the updated list. -/
inductive GMResL where
  | thrown (cs : List Node) (e : Err)
  | hit (cs : List Node) (path : List Nat) (isVal : Bool) (kick : Bool)
  | miss

/-- Prepend "one child further" to a path produced for the tail of a child
list. -/
def bump : List Nat → List Nat
  | [] => []
  | i :: p => (i + 1) :: p

mutual

/-- FlagBase::Match (args.hxx:429/445) for the flag leaves — matcher miss
returns null; extraError with matched already set throws ExtraError before
mutating; otherwise `matched = true` and the node is returned (HelpFlag
then throws Help, args.hxx:1340, after FlagBase::Match has already set
matched) — and Group::Match (args.hxx:548/574) for groups: first match in
declaration order, searching nested groups transparently.  Positional
leaves are not FlagBase, so they never participate. -/
def matchGo : Node → FlagArg → GMRes
  | .flag m k ee ko mtd, fa =>
      if m.MatchEither fa then
        if ee && mtd then
          .thrown (.flag m k ee ko mtd) (.extraError (msgExtra fa.text))
        else
          match k with
          | .help => .thrown (.flag m k ee ko true) (.help fa.text)
          | .plain => .hit (.flag m k ee ko true) [] false ko
      else .miss
  | .valueFlag m ee ko mtd v, fa =>
      if m.MatchEither fa then
        if ee && mtd then
          .thrown (.valueFlag m ee ko mtd v) (.extraError (msgExtra fa.text))
        else .hit (.valueFlag m ee ko true v) [] true ko
      else .miss
  | .mapFlag nm m mp ee ko mtd v, fa =>
      if m.MatchEither fa then
        if ee && mtd then
          .thrown (.mapFlag nm m mp ee ko mtd v) (.extraError (msgExtra fa.text))
        else .hit (.mapFlag nm m mp ee ko true v) [] true ko
      else .miss
  | .group val cs, fa =>
      match matchList cs fa with
      | .thrown cs' e => .thrown (.group val cs') e
      | .hit cs' p iv k => .hit (.group val cs') p iv k
      | .miss => .miss
  | .positional _ _ _ _, _ => .miss
  | .mapPositional _ _ _ _ _ _, _ => .miss
  | .positionalList _ _ _ _, _ => .miss

/-- The loop of Group::Match over the children, in declaration order. -/
def matchList : List Node → FlagArg → GMResL
  | [], _ => .miss
  | c :: cs, fa =>
      match matchGo c fa with
      | .thrown c' e => .thrown (c' :: cs) e
      | .hit c' p iv k => .hit (c' :: cs) (0 :: p) iv k
      | .miss =>
          match matchList cs fa with
          | .thrown cs' e => .thrown (c :: cs') e
          | .hit cs' p iv k => .hit (c :: cs') (bump p) iv k
          | .miss => .miss

end

/-- The node a path points at (dereferencing the pointer). -/
def getAt : Node → List Nat → Option Node
  | n, [] => some n
  | .group _ cs, i :: p =>
      match cs[i]? with
      | some c => getAt c p
      | none => none
  | _, _ :: _ => none

/-- The virtual ParseValue implementations (value types at string):
ValueFlag (args.hxx:1456) assigns through the Reader; MapFlag
(args.hxx:1536) converts, looks the key up, throws MapError on a miss and
stores the mapped value otherwise; Positional (args.hxx:1631) assigns,
then `ready = false; matched = true`; MapPositional (args.hxx:1713) looks
up, and only on a hit sets value, ready and matched; PositionalList
(args.hxx:1669) appends and sets matched, never touching ready.  Flags'
matched was already set by Match, so ParseValue does not touch it. -/
def nodeParseValue : Node → Str → Node × Option Err
  | .valueFlag m ee ko mtd _, v => (.valueFlag m ee ko mtd v, Option.none)
  | .mapFlag nm m mp ee ko mtd old, v =>
      match lookupMap mp v with
      | some t => (.mapFlag nm m mp ee ko mtd t, Option.none)
      | Option.none => (.mapFlag nm m mp ee ko mtd old, some (.mapError (msgMapMiss v nm)))
  | .positional ko _ _ _, v => (.positional ko true false v, Option.none)
  | .mapPositional nm mp ko mtd rdy old, v =>
      match lookupMap mp v with
      | some t => (.mapPositional nm mp ko true false t, Option.none)
      | Option.none => (.mapPositional nm mp ko mtd rdy old, some (.mapError (msgMapMiss v nm)))
  | .positionalList ko _ rdy vs, v => (.positionalList ko true rdy (vs ++ [v]), Option.none)
  | n, _ => (n, Option.none)

/-- Apply `base->ParseValue(text)` through a pointer: apply `nodeParseValue` to
the node a path points at, rebuilding the tree around it. -/
def parseValueAt : Node → List Nat → Str → Node × Option Err
  | n, [], v => nodeParseValue n v
  | .group val cs, i :: p, v =>
      match cs[i]? with
      | some c =>
          let r := parseValueAt c p v
          (.group val (cs.set i r.1), r.2)
      | Option.none => (.group val cs, Option.none)
  | n, _ :: _, _ => (n, Option.none)

/-- NamedBase::KickOut (args.hxx:408); false for a Group (groups carry no
kickout flag). -/
def kickOf : Node → Bool
  | .flag _ _ _ ko _ => ko
  | .valueFlag _ _ ko _ _ => ko
  | .mapFlag _ _ _ _ ko _ _ => ko
  | .positional ko _ _ _ => ko
  | .mapPositional _ _ ko _ _ _ => ko
  | .positionalList ko _ _ _ => ko
  | .group _ _ => false

/-- Read `pos->KickOut()` through a pointer. -/
def kickAt (n : Node) (p : List Nat) : Bool :=
  match getAt n p with
  | some nd => kickOf nd
  | Option.none => false

/-- PositionalBase::Ready (args.hxx:519); false for anything that is not a
positional-family leaf. -/
def nodeReady : Node → Bool
  | .positional _ _ rdy _ => rdy
  | .mapPositional _ _ _ _ rdy _ => rdy
  | .positionalList _ _ rdy _ => rdy
  | _ => false

/-- Whether a node is one of the positional-family leaves
(PositionalBase). -/
def isPosFamB : Node → Bool
  | .positional _ _ _ _ => true
  | .mapPositional _ _ _ _ _ _ => true
  | .positionalList _ _ _ _ => true
  | _ => false

/-- Whether a node is one of the flag-family leaves (FlagBase). -/
def isFlagFamB : Node → Bool
  | .flag _ _ _ _ _ => true
  | .valueFlag _ _ _ _ _ => true
  | .mapFlag _ _ _ _ _ _ _ => true
  | _ => false

/-- Whether a node is a Group. -/
def isGroupB : Node → Bool
  | .group _ _ => true
  | _ => false

/-- Read `Ready()` of the node a path points at (and that it is a positional at
all). -/
def readyAt (n : Node) (p : List Nat) : Bool :=
  match getAt n p with
  | some nd => isPosFamB nd && nodeReady nd
  | Option.none => false

mutual

/-- Group::GetNextPositional (args.hxx:599): scan children in declaration
order; a positional-family child is a candidate, a Group child's candidate
is its own GetNextPositional; return the first candidate that is Ready. -/
def getNextPositional : Node → Option (List Nat)
  | .group _ cs => gnpList cs
  | _ => Option.none

/-- The per-child candidate of the GetNextPositional loop body
(args.hxx:603-608): `next = dynamic_cast<PositionalBase*>(child)`, replaced
by `group->GetNextPositional()` when the child is a Group. -/
def gnpChild : Node → Option (List Nat)
  | .positional _ _ _ _ => some []
  | .mapPositional _ _ _ _ _ _ => some []
  | .positionalList _ _ _ _ => some []
  | .group _ cs => gnpList cs
  | _ => Option.none

/-- The loop of GetNextPositional over the children: return the first
candidate that is Ready (args.hxx:609). -/
def gnpList : List Node → Option (List Nat)
  | [] => Option.none
  | c :: cs =>
      match gnpChild c with
      | some p =>
          match getAt c p with
          | some nd =>
              if nodeReady nd then some (0 :: p)
              else (gnpList cs).map bump
          | Option.none => (gnpList cs).map bump
      | Option.none => (gnpList cs).map bump

end

mutual

/-- Base::ResetMatched (args.hxx:371) / Group::ResetMatched (args.hxx:735):
clear `matched` on every node, recursively; nothing else (values and the
`ready` flags of positionals are left as they are). -/
def resetMatched : Node → Node
  | .flag m k ee ko _ => .flag m k ee ko false
  | .valueFlag m ee ko _ v => .valueFlag m ee ko false v
  | .mapFlag nm m mp ee ko _ v => .mapFlag nm m mp ee ko false v
  | .positional ko _ rdy v => .positional ko false rdy v
  | .mapPositional nm mp ko _ rdy v => .mapPositional nm mp ko false rdy v
  | .positionalList ko _ rdy vs => .positionalList ko false rdy vs
  | .group val cs => .group val (resetList cs)

/-- ResetMatched over a child list. -/
def resetList : List Node → List Node
  | [] => []
  | c :: cs => resetMatched c :: resetList cs

end

/-- The parser configuration read during parsing (args.hxx:814-824 with
the defaults of the ArgumentParser constructor, args.hxx:869). -/
structure Config where
  longPfx : Str
  shortPfx : Str
  longSep : Str
  terminator : Str
  allowJoinedShortValue : Bool
  allowJoinedLongValue : Bool
  allowSeparateShortValue : Bool
  allowSeparateLongValue : Bool

/-- The ArgumentParser constructor defaults: longprefix "--", shortprefix
"-", longseparator "=", terminator "--", all four separation toggles
true. -/
def defaultConfig : Config :=
  ⟨"--".data, "-".data, "=".data, "--".data, true, true, true, true⟩

/-- Test `chunk.find(longprefix) == 0 && chunk.size() > longprefix.size()`
(args.hxx:1127). -/
def longTokenQ (cfg : Config) (chunk : Str) : Bool :=
  cfg.longPfx.isPrefixOf chunk && decide (cfg.longPfx.length < chunk.length)

/-- Test `chunk.find(shortprefix) == 0 && chunk.size() > shortprefix.size()`
(args.hxx:1189). -/
def shortTokenQ (cfg : Config) (chunk : Str) : Bool :=
  cfg.shortPfx.isPrefixOf chunk && decide (cfg.shortPfx.length < chunk.length)

/-- Outcome of ParseArgs: the returned iterator as the remaining token
suffix (`.ok []` when the scan ran to `end`), or the thrown error. -/
inductive PRes where
  | ok (rest : List Str)
  | err (e : Err)
deriving DecidableEq

/-- Outcome of the scan of one short-flag cluster: an error, a kick-out
(`return ++it` with the iterator still on the cluster token), or fall
through to the next token (`tookNext` records whether a separate value
consumed one extra token, i.e. whether `++it` ran inside the loop body). -/
inductive SRes where
  | err (e : Err)
  | kicked
  | cont (tookNext : Bool)

/-- The inner character loop of the short-flag branch (args.hxx:1192-1246):
per character, Match; a miss throws; a ValueFlagBase match takes the
non-empty remainder of the token as a joined value, or otherwise consumes
the next whole token as a separate value (each gated by its toggle), and
then `break`s out of the cluster — note that the `break` at args.hxx:1233
runs before the KickOut test at 1236, so a value-accepting short flag
never triggers kick-out; a non-value match tests KickOut (early return)
and otherwise continues with the next character. -/
def shortCluster (cfg : Config) : Node → List Char → List Str → Node × SRes
  | root, [], _ => (root, .cont false)
  | root, c :: cs, rest =>
      match matchGo root (.short c) with
      | .thrown root' e => (root', .err e)
      | .miss => (root, .err (.parseError (msgNoMatchShort c)))
      | .hit root' p iv k =>
          if iv then
            if cs.isEmpty then
              match rest with
              | [] => (root', .err (.parseError (msgRequiresArg [c])))
              | v :: _ =>
                  if cfg.allowSeparateShortValue then
                    match parseValueAt root' p v with
                    | (root'', some e) => (root'', .err e)
                    | (root'', Option.none) => (root'', .cont true)
                  else (root', .err (.parseError (msgSeparate [c])))
            else
              if cfg.allowJoinedShortValue then
                match parseValueAt root' p cs with
                | (root'', some e) => (root'', .err e)
                | (root'', Option.none) => (root'', .cont false)
              else (root', .err (.parseError (msgJoined [c])))
          else
            if k then (root', .kicked)
            else shortCluster cfg root' cs rest

/-- Outcome of handling one long-flag token or one positional token: an
error, a kick-out (`return ++it`), or fall through to the next token;
`tookNext` records whether a separate value consumed one extra token
(i.e. whether `++it` ran inside the branch before the return /
fall-through). -/
inductive LRes where
  | err (e : Err)
  | kicked (tookNext : Bool)
  | cont (tookNext : Bool)

/-- The long-flag branch of the token loop (args.hxx:1127-1187): strip the
long prefix, split on the first occurrence of the long separator (none
when the configured separator is empty), Match the name; a ValueFlagBase
match feeds the joined value or consumes the next token as a separate
value (each gated by its toggle, and with the stream-exhaustion test
before the separate-value toggle test); a non-value match with an inline
value is an error; then the KickOut test (args.hxx:1178). -/
def longBranch (cfg : Config) (root : Node) (chunk : Str) (rest : List Str) : Node × LRes :=
  let argchunk := chunk.drop cfg.longPfx.length
  let sep := if cfg.longSep.isEmpty then Option.none else findSub argchunk cfg.longSep
  let arg := match sep with
    | some i => argchunk.take i
    | Option.none => argchunk
  match matchGo root (.long arg) with
  | .thrown root' e => (root', .err e)
  | .miss => (root, .err (.parseError (msgNoMatch arg)))
  | .hit root' p iv k =>
      if iv then
        match sep with
        | some i =>
            if cfg.allowJoinedLongValue then
              match parseValueAt root' p (argchunk.drop (i + cfg.longSep.length)) with
              | (root'', some e) => (root'', .err e)
              | (root'', Option.none) => (root'', if k then .kicked false else .cont false)
            else (root', .err (.parseError (msgJoined arg)))
        | Option.none =>
            match rest with
            | [] => (root', .err (.parseError (msgRequiresArg arg)))
            | v :: _ =>
                if cfg.allowSeparateLongValue then
                  match parseValueAt root' p v with
                  | (root'', some e) => (root'', .err e)
                  | (root'', Option.none) => (root'', if k then .kicked true else .cont true)
                else (root', .err (.parseError (msgSeparate arg)))
      else
        match sep with
        | some _ => (root', .err (.parseError (msgNonArgFlag chunk)))
        | Option.none => (root', if k then .kicked false else .cont false)

/-- The positional branch of the token loop (args.hxx:1247-1263): hand the
token to the next ready positional (none ready is an error), then the
KickOut test (args.hxx:1254, read off the node after ParseValue). -/
def posBranch (root : Node) (chunk : Str) : Node × LRes :=
  match getNextPositional root with
  | Option.none => (root, .err (.parseError (msgNoPositional chunk)))
  | some p =>
      match parseValueAt root p chunk with
      | (root', some e) => (root', .err e)
      | (root', Option.none) => (root', if kickAt root' p then .kicked false else .cont false)

/-- The token loop of ArgumentParser::ParseArgs (args.hxx:1111-1273),
after the initial ResetMatched: per token, in order — terminator test,
long-flag branch, short-flag branch, positional dispatch — and, once the
token list is exhausted, the final `if (!Matched()) throw ValidationError`
(args.hxx:1266).  A successful match with KickOut set returns `++it`, the
suffix just after the tokens consumed so far (one further token when a
separate value was consumed), skipping validation.  The `[]` sub-cases
under `tookNext = true` are unreachable: a branch only reports a consumed
extra token when `rest` is non-empty. -/
def parseLoop (cfg : Config) : Node → Bool → List Str → Node × PRes
  | root, _, [] =>
      if MatchedQ root then (root, .ok []) else (root, .err (.validationError msgValidation))
  | root, terminated, chunk :: rest =>
      if !terminated && chunk == cfg.terminator then
        parseLoop cfg root true rest
      else if !terminated && longTokenQ cfg chunk then
        match longBranch cfg root chunk rest with
        | (root', .err e) => (root', .err e)
        | (root', .kicked false) => (root', .ok rest)
        | (root', .kicked true) =>
            match rest with
            | _ :: rest2 => (root', .ok rest2)
            | [] => (root', .ok [])
        | (root', .cont false) => parseLoop cfg root' false rest
        | (root', .cont true) =>
            match rest with
            | _ :: rest2 => parseLoop cfg root' false rest2
            | [] => (root', .err (.parseError (msgRequiresArg [])))
      else if !terminated && shortTokenQ cfg chunk then
        match shortCluster cfg root (chunk.drop cfg.shortPfx.length) rest with
        | (root', .err e) => (root', .err e)
        | (root', .kicked) => (root', .ok rest)
        | (root', .cont false) => parseLoop cfg root' false rest
        | (root', .cont true) =>
            match rest with
            | _ :: rest2 => parseLoop cfg root' false rest2
            | [] => (root', .err (.parseError (msgRequiresArg [])))
      else
        match posBranch root chunk with
        | (root', .err e) => (root', .err e)
        | (root', .kicked _) => (root', .ok rest)
        | (root', .cont _) => parseLoop cfg root' terminated rest

/-- ArgumentParser::ParseArgs (args.hxx:1112): reset every matched flag
(values untouched), then scan with `terminated = false`. -/
def ParseArgs (cfg : Config) (root : Node) (tokens : List Str) : Node × PRes :=
  parseLoop cfg (resetMatched root) false tokens

/-- Observation: `Matched()` of the node a path points at. -/
def matchedAt (n : Node) (p : List Nat) : Bool :=
  match getAt n p with
  | some nd => MatchedQ nd
  | Option.none => false

/-- Observation: `Get()` of the single-valued node a path points at. -/
def valueAt (n : Node) (p : List Nat) : Option Str :=
  match getAt n p with
  | some (.valueFlag _ _ _ _ v) => some v
  | some (.mapFlag _ _ _ _ _ _ v) => some v
  | some (.positional _ _ _ v) => some v
  | some (.mapPositional _ _ _ _ _ v) => some v
  | _ => Option.none

/-- Observation: `Get()` of the list-valued node a path points at. -/
def valuesAt (n : Node) (p : List Nat) : Option (List Str) :=
  match getAt n p with
  | some (.positionalList _ _ _ vs) => some vs
  | _ => Option.none

/-- The tree after an attempted match: the updated tree on a throw or a
hit, the untouched input on a miss (a null return from Match mutates
nothing). -/
def gmTree : GMRes → Node → Node
  | .thrown t _, _ => t
  | .hit t _ _ _, _ => t
  | .miss, n => n

/-- The child list after an attempted match across it. -/
def gmlTree : GMResL → List Node → List Node
  | .thrown t _, _ => t
  | .hit t _ _ _, _ => t
  | .miss, cs => cs

mutual

/-- All flag-family leaves of the tree, in declaration order, with their
full state: two trees with equal `flagsSnapshot` agree on every flag's
matcher, kind, toggles, matched state and stored value. -/
def flagsSnapshot : Node → List Node
  | .flag m k ee ko mtd => [.flag m k ee ko mtd]
  | .valueFlag m ee ko mtd v => [.valueFlag m ee ko mtd v]
  | .mapFlag nm m mp ee ko mtd v => [.mapFlag nm m mp ee ko mtd v]
  | .positional _ _ _ _ => []
  | .mapPositional _ _ _ _ _ _ => []
  | .positionalList _ _ _ _ => []
  | .group _ cs => flagsSnapshotL cs

/-- Fold `flagsSnapshot` over a child list. -/
def flagsSnapshotL : List Node → List Node
  | [] => []
  | c :: cs => flagsSnapshot c ++ flagsSnapshotL cs

end

mutual

/-- Whether every leaf of the tree has `matched = false` (the state
ResetMatched establishes). -/
def allUnmatchedB : Node → Bool
  | .flag _ _ _ _ mtd => !mtd
  | .valueFlag _ _ _ mtd _ => !mtd
  | .mapFlag _ _ _ _ _ mtd _ => !mtd
  | .positional _ mtd _ _ => !mtd
  | .mapPositional _ _ _ mtd _ _ => !mtd
  | .positionalList _ mtd _ _ => !mtd
  | .group _ cs => allUnmatchedL cs

/-- Fold `allUnmatchedB` over a child list. -/
def allUnmatchedL : List Node → Bool
  | [] => true
  | c :: cs => allUnmatchedB c && allUnmatchedL cs

end

mutual

/-- The stored values of every value-holding leaf, in declaration order
(one entry per single-valued leaf, the whole list for a list leaf). -/
def valuesOf : Node → List Str
  | .flag _ _ _ _ _ => []
  | .valueFlag _ _ _ _ v => [v]
  | .mapFlag _ _ _ _ _ _ v => [v]
  | .positional _ _ _ v => [v]
  | .mapPositional _ _ _ _ _ v => [v]
  | .positionalList _ _ _ vs => vs
  | .group _ cs => valuesL cs

/-- Fold `valuesOf` over a child list. -/
def valuesL : List Node → List Str
  | [] => []
  | c :: cs => valuesOf c ++ valuesL cs

end

/-- A plain boolean Flag with the given matcher sets, initially
unmatched, no extraError, no kickout. -/
def plainFlag (sh : List Char) (lo : List Str) : Node :=
  .flag ⟨sh, lo⟩ .plain false false false

/-- A ValueFlag<string> with the given matcher sets, default value ""
(`T()`), initially unmatched, no extraError, no kickout. -/
def valFlag (sh : List Char) (lo : List Str) : Node :=
  .valueFlag ⟨sh, lo⟩ false false false []

/-- The map of the library's sub-parser kick-out test ("Sub-parsers should
work through kick-out"), values rendered as strings. -/
def subMap : List (Str × Str) :=
  [("default".data, "def".data), ("foo".data, "foo".data), ("bar".data, "bar".data),
   ("red".data, "red".data), ("yellow".data, "yellow".data), ("green".data, "green".data)]

/-- The parser of the sub-parser kick-out test: flags foo and bar, and
MapPositional sub with KickOut set on `sub` — extended with one empty
sub-group of an arbitrary validator, to observe that a kicked-out parse
never consults validation. -/
def c1Tree (v : Validator) : Node :=
  .group .allChildGroups
    [plainFlag ['f'] ["foo".data], plainFlag ['b'] ["bar".data],
     .mapPositional "sub".data subMap true false true [], .group v []]

/-- C1's literal reading: KickOut set on the flag `foo` instead of on the
positional `sub`. -/
def c1TreeBad : Node :=
  .group .allChildGroups
    [.flag ⟨['f'], ["foo".data]⟩ .plain false true false, plainFlag ['b'] ["bar".data],
     .mapPositional "sub".data subMap false false true []]

/-- First stage of the library's "Kick-out should work via all flags and
value flags" test: boolean flags a, b, c, d and foo {f,foo} with KickOut
set on foo (a non-value flag kicked from the long branch). -/
def c1ChainA : Node :=
  .group .allChildGroups
    [plainFlag ['a'] [], plainFlag ['b'] [], plainFlag ['c'] [], plainFlag ['d'] [],
     .flag ⟨['f'], ["foo".data]⟩ .plain false true false]

/-- Second stage of the same test: boolean flags a, b, c, d and ValueFlag
bar {B,bar} with KickOut set on bar (kicked from the long branch right
after consuming its separate value token). -/
def c1ChainB : Node :=
  .group .allChildGroups
    [plainFlag ['a'] [], plainFlag ['b'] [], plainFlag ['c'] [], plainFlag ['d'] [],
     .valueFlag ⟨['B'], ["bar".data]⟩ false true false []]

/-- A value-accepting short flag f with KickOut set, next to a boolean
flag z: used to observe that a value consumed inside a short-flag cluster
never triggers kick-out (the cluster break precedes the KickOut test). -/
def c1ShortVal : Node :=
  .group .allChildGroups
    [.valueFlag ⟨['f'], []⟩ false true false [], plainFlag ['z'] []]

/-- A root whose failing sub-group sits two levels down, behind a
DontCare group: AllChildGroups never sees it. -/
def c2Tree : Node :=
  .group .allChildGroups [.group .dontCare [.group .careTooMuch []]]

/-- A parser declaring one ValueFlag --foo / -f. -/
def c3Tree : Node :=
  .group .allChildGroups [valFlag ['f'] ["foo".data]]

/-- defaultConfig with allowSeparateLongValue = false. -/
def c3Cfg : Config :=
  ⟨"--".data, "-".data, "=".data, "--".data, true, true, true, false⟩

/-- Value-accepting f plus boolean b, for the "-fb" clustering scenario. -/
def c4TreeVal : Node :=
  .group .allChildGroups [valFlag ['f'] ["foo".data], plainFlag ['b'] ["bar".data]]

/-- Two boolean flags f and b, for the non-value "-fb" scenario. -/
def c4TreeBool : Node :=
  .group .allChildGroups [plainFlag ['f'] ["foo".data], plainFlag ['b'] ["bar".data]]

/-- A value flag foo plus a positional list, for the terminator
scenario. -/
def c5Tree : Node :=
  .group .allChildGroups [valFlag ['f'] ["foo".data], .positionalList false false true []]

/-- A parser declaring one boolean flag -f. -/
def c7Tree : Node :=
  .group .allChildGroups [plainFlag ['f'] []]

/-- A parser declaring one MapFlag --m backed by `subMap`, with stored
default "def". -/
def c8Tree : Node :=
  .group .allChildGroups [.mapFlag "m".data ⟨['m'], ["m".data]⟩ subMap false false false "def".data]

/-- A parser declaring one HelpFlag -h / --help. -/
def c10Tree : Node :=
  .group .allChildGroups [.flag ⟨['h'], ["help".data]⟩ .help false false false]

/-- A parser with one already-consumed positional (ready = false, holding
"x") and a positional list, used to witness C9. -/
def c9Tree : Node :=
  .group .allChildGroups
    [.positional false true false "x".data, .positionalList false false true []]

/-! ## Small facts about the node predicates -/

/-- Only positional-family leaves report Ready. -/
theorem nodeReady_posFam : ∀ nd : Node, nodeReady nd = true → isPosFamB nd = true := by
  intro nd h
  cases nd <;> simp_all [nodeReady, isPosFamB]

/-- A flag-family leaf is not a positional-family leaf. -/
theorem flagFam_not_posFam : ∀ nd : Node, isFlagFamB nd = true → isPosFamB nd = false := by
  intro nd h
  cases nd <;> simp_all [isFlagFamB, isPosFamB]

/-- MatchedChildren agrees with counting children by Matched(). -/
theorem matchedCount_eq_countP :
    ∀ cs : List Node, matchedCount cs = cs.countP (fun c => MatchedQ c)
  | [] => rfl
  | c :: cs => by
      have ih := matchedCount_eq_countP cs
      cases h : MatchedQ c <;> simp [matchedCount, List.countP_cons, h, ih]
      omega

/-- The AllChildGroups loop checks exactly: every immediate child that is
a Group reports Matched() (its own validator). -/
theorem groupsMatched_eq_all :
    ∀ cs : List Node, groupsMatched cs = cs.all (fun c => !isGroupB c || MatchedQ c)
  | [] => rfl
  | c :: cs => by
      have ih := groupsMatched_eq_all cs
      cases c <;> simp [groupsMatched, isGroupB, MatchedQ, ih]

/-! ## ResetMatched clears matched flags and nothing else -/

mutual

theorem reset_unmatched : ∀ n : Node, allUnmatchedB (resetMatched n) = true
  | .flag _ _ _ _ _ => rfl
  | .valueFlag _ _ _ _ _ => rfl
  | .mapFlag _ _ _ _ _ _ _ => rfl
  | .positional _ _ _ _ => rfl
  | .mapPositional _ _ _ _ _ _ => rfl
  | .positionalList _ _ _ _ => rfl
  | .group v cs => by simp [resetMatched, allUnmatchedB, reset_unmatchedL cs]

theorem reset_unmatchedL : ∀ cs : List Node, allUnmatchedL (resetList cs) = true
  | [] => rfl
  | c :: cs => by simp [resetList, allUnmatchedL, reset_unmatched c, reset_unmatchedL cs]

end

mutual

theorem reset_values : ∀ n : Node, valuesOf (resetMatched n) = valuesOf n
  | .flag _ _ _ _ _ => rfl
  | .valueFlag _ _ _ _ _ => rfl
  | .mapFlag _ _ _ _ _ _ _ => rfl
  | .positional _ _ _ _ => rfl
  | .mapPositional _ _ _ _ _ _ => rfl
  | .positionalList _ _ _ _ => rfl
  | .group v cs => by simp [resetMatched, valuesOf, reset_valuesL cs]

theorem reset_valuesL : ∀ cs : List Node, valuesL (resetList cs) = valuesL cs
  | [] => rfl
  | c :: cs => by simp [resetList, valuesL, reset_values c, reset_valuesL cs]

end

/-! ## GetNextPositional only ever returns a Ready positional -/

/-- Dereferencing into a group goes through the indexed child. -/
theorem readyAt_group (v : Validator) (cs : List Node) (i : Nat) (p : List Nat) (c : Node)
    (h : cs[i]? = some c) : readyAt (.group v cs) (i :: p) = readyAt c p := by
  simp [readyAt, getAt, h]

/-- The tail case of the GetNextPositional loop, shifted one child to the
right. -/
theorem gnpList_ready_shift (c : Node) (cs : List Node) (p : List Nat)
    (hih : ∀ q : List Nat, gnpList cs = some q →
      ∃ i p' c', q = i :: p' ∧ cs[i]? = some c' ∧ readyAt c' p' = true)
    (h : (gnpList cs).map bump = some p) :
    ∃ i p' c', p = i :: p' ∧ (c :: cs)[i]? = some c' ∧ readyAt c' p' = true := by
  rcases hq : gnpList cs with _ | q
  · rw [hq] at h
    simp at h
  · rw [hq] at h
    rcases hih q hq with ⟨i, p', c', rfl, hci, hr⟩
    refine ⟨i + 1, p', c', ?_, by simpa using hci, hr⟩
    simpa [bump] using h.symm

/-- The loop of GetNextPositional yields an index into the list and a path
to a Ready positional below that child. -/
theorem gnpList_ready :
    ∀ (cs : List Node) (p : List Nat), gnpList cs = some p →
      ∃ i p' c, p = i :: p' ∧ cs[i]? = some c ∧ readyAt c p' = true
  | c :: cs, p, h => by
      rw [gnpList] at h
      rcases hc : gnpChild c with _ | q
      · rw [hc] at h
        exact gnpList_ready_shift c cs p (fun q hq => gnpList_ready cs q hq) h
      · rw [hc] at h
        dsimp only at h
        rcases hg : getAt c q with _ | nd
        · rw [hg] at h
          dsimp only at h
          exact gnpList_ready_shift c cs p (fun q hq => gnpList_ready cs q hq) h
        · rw [hg] at h
          dsimp only at h
          by_cases hr : nodeReady nd = true
          · rw [if_pos hr] at h
            obtain rfl : (0 : Nat) :: q = p := by simpa using h
            refine ⟨0, q, c, rfl, by simp, ?_⟩
            simp [readyAt, hg, hr, nodeReady_posFam nd hr]
          · rw [if_neg hr] at h
            exact gnpList_ready_shift c cs p (fun q hq => gnpList_ready cs q hq) h

/-- Group::GetNextPositional only returns paths to Ready positionals. -/
theorem gnp_ready :
    ∀ (n : Node) (p : List Nat), getNextPositional n = some p → readyAt n p = true := by
  intro n p h
  cases n with
  | group v cs =>
      rw [getNextPositional] at h
      rcases gnpList_ready cs p h with ⟨i, p', c, rfl, hci, hr⟩
      rw [readyAt_group v cs i p' c hci]
      exact hr
  | flag m k ee ko mtd => simp [getNextPositional] at h
  | valueFlag m ee ko mtd v => simp [getNextPositional] at h
  | mapFlag nm m mp ee ko mtd v => simp [getNextPositional] at h
  | positional ko mtd rdy v => simp [getNextPositional] at h
  | mapPositional nm mp ko mtd rdy v => simp [getNextPositional] at h
  | positionalList ko mtd rdy vs => simp [getNextPositional] at h


/-! ## A hit from Match points at a flag-family leaf; Match and ParseValue preservation -/

mutual

theorem match_hit_flagFam :
    ∀ (n : Node) (fa : FlagArg) (n' : Node) (p : List Nat) (iv k : Bool),
      matchGo n fa = .hit n' p iv k →
      ∃ nd, getAt n' p = some nd ∧ isFlagFamB nd = true
  | .flag m kk ee ko mtd, fa, n', p, iv, k, h => by
      simp only [matchGo] at h
      split at h
      · split at h
        · simp at h
        · cases kk with
          | help => simp at h
          | plain =>
              obtain ⟨rfl, rfl, rfl, rfl⟩ := by simpa [GMRes.hit.injEq] using h
              exact ⟨_, rfl, rfl⟩
      · simp at h
  | .valueFlag m ee ko mtd v, fa, n', p, iv, k, h => by
      simp only [matchGo] at h
      split at h
      · split at h
        · simp at h
        · obtain ⟨rfl, rfl, rfl, rfl⟩ := by simpa [GMRes.hit.injEq] using h
          exact ⟨_, rfl, rfl⟩
      · simp at h
  | .mapFlag nm m mp ee ko mtd v, fa, n', p, iv, k, h => by
      simp only [matchGo] at h
      split at h
      · split at h
        · simp at h
        · obtain ⟨rfl, rfl, rfl, rfl⟩ := by simpa [GMRes.hit.injEq] using h
          exact ⟨_, rfl, rfl⟩
      · simp at h
  | .group val cs, fa, n', p, iv, k, h => by
      simp only [matchGo] at h
      rcases hm : matchList cs fa with ⟨cs0, e0⟩ | ⟨cs0, p0, iv0, k0⟩ | _ <;>
        rw [hm] at h <;> dsimp only at h
      · simp at h
      · obtain ⟨rfl, rfl, rfl, rfl⟩ := by simpa [GMRes.hit.injEq] using h
        rcases matchList_hit_flagFam cs fa cs0 p0 iv0 k0 hm with ⟨i, p', c, nd, hp, hci, hg, hf⟩
        subst hp
        exact ⟨nd, by simp [getAt, hci, hg], hf⟩
      · simp at h
  | .positional _ _ _ _, fa, n', p, iv, k, h => by simp [matchGo] at h
  | .mapPositional _ _ _ _ _ _, fa, n', p, iv, k, h => by simp [matchGo] at h
  | .positionalList _ _ _ _, fa, n', p, iv, k, h => by simp [matchGo] at h

theorem matchList_hit_flagFam :
    ∀ (cs : List Node) (fa : FlagArg) (cs' : List Node) (p : List Nat) (iv k : Bool),
      matchList cs fa = .hit cs' p iv k →
      ∃ i p' c nd, p = i :: p' ∧ cs'[i]? = some c ∧ getAt c p' = some nd ∧ isFlagFamB nd = true
  | [], fa, cs', p, iv, k, h => by simp [matchList] at h
  | c :: cs, fa, cs', p, iv, k, h => by
      simp only [matchList] at h
      rcases hm : matchGo c fa with ⟨c0, e0⟩ | ⟨c0, p0, iv0, k0⟩ | _ <;>
        rw [hm] at h <;> dsimp only at h
      · simp at h
      · obtain ⟨rfl, rfl, rfl, rfl⟩ := by simpa [GMResL.hit.injEq] using h
        rcases match_hit_flagFam c fa c0 p0 iv0 k0 hm with ⟨nd, hg, hf⟩
        exact ⟨0, p0, c0, nd, rfl, by simp, hg, hf⟩
      · rcases hml : matchList cs fa with ⟨cs0, e0⟩ | ⟨cs0, p0, iv0, k0⟩ | _ <;>
          rw [hml] at h <;> dsimp only at h
        · simp at h
        · obtain ⟨rfl, rfl, rfl, rfl⟩ := by simpa [GMResL.hit.injEq] using h
          rcases matchList_hit_flagFam cs fa cs0 p0 iv0 k0 hml with ⟨i, p', c1, nd, hp, hci, hg, hf⟩
          subst hp
          exact ⟨i + 1, p', c1, nd, rfl, by simpa using hci, hg, hf⟩
        · simp at h

end


mutual

theorem match_keeps_pos :
    ∀ (n : Node) (fa : FlagArg) (q : List Nat) (nd : Node),
      getAt n q = some nd → isPosFamB nd = true →
      getAt (gmTree (matchGo n fa) n) q = some nd
  | .flag m kk ee ko mtd, fa, q, nd, hq, hpos => by
      cases q with
      | nil =>
          obtain rfl : Node.flag m kk ee ko mtd = nd := by simpa [getAt] using hq
          simp [isPosFamB] at hpos
      | cons j q' => simp [getAt] at hq
  | .valueFlag m ee ko mtd v, fa, q, nd, hq, hpos => by
      cases q with
      | nil =>
          obtain rfl : Node.valueFlag m ee ko mtd v = nd := by simpa [getAt] using hq
          simp [isPosFamB] at hpos
      | cons j q' => simp [getAt] at hq
  | .mapFlag nm m mp ee ko mtd v, fa, q, nd, hq, hpos => by
      cases q with
      | nil =>
          obtain rfl : Node.mapFlag nm m mp ee ko mtd v = nd := by simpa [getAt] using hq
          simp [isPosFamB] at hpos
      | cons j q' => simp [getAt] at hq
  | .positional _ _ _ _, fa, q, nd, hq, _ => by simpa [matchGo, gmTree] using hq
  | .mapPositional _ _ _ _ _ _, fa, q, nd, hq, _ => by simpa [matchGo, gmTree] using hq
  | .positionalList _ _ _ _, fa, q, nd, hq, _ => by simpa [matchGo, gmTree] using hq
  | .group val cs, fa, q, nd, hq, hpos => by
      cases q with
      | nil =>
          obtain rfl : Node.group val cs = nd := by simpa [getAt] using hq
          simp [isPosFamB] at hpos
      | cons j q' =>
          rw [getAt] at hq
          rcases hcj : cs[j]? with _ | cj
          · rw [hcj] at hq; simp at hq
          · rw [hcj] at hq
            dsimp only at hq
            rcases matchList_keeps_pos cs fa j q' cj nd hcj hq hpos with ⟨c', hc', hg'⟩
            simp only [matchGo]
            rcases hm : matchList cs fa with ⟨cs0, e0⟩ | ⟨cs0, p0, iv0, k0⟩ | _ <;>
              rw [hm] at hc' <;> dsimp only [gmTree, gmlTree] at hc' ⊢ <;>
              simp [getAt, hc', hg']

theorem matchList_keeps_pos :
    ∀ (cs : List Node) (fa : FlagArg) (j : Nat) (q' : List Nat) (cj nd : Node),
      cs[j]? = some cj → getAt cj q' = some nd → isPosFamB nd = true →
      ∃ c', (gmlTree (matchList cs fa) cs)[j]? = some c' ∧ getAt c' q' = some nd
  | [], fa, j, q', cj, nd, hcj, hg, hpos => by simp at hcj
  | c :: cs, fa, j, q', cj, nd, hcj, hg, hpos => by
      rw [matchList]
      cases j with
      | zero =>
          have hgc : getAt c q' = some nd := by
            have hceq : c = cj := by simpa using hcj
            rw [hceq]; exact hg
          rcases hm : matchGo c fa with ⟨c0, e0⟩ | ⟨c0, p0, iv0, k0⟩ | _ <;> dsimp only [gmlTree]
          · have hk := match_keeps_pos c fa q' nd hgc hpos
            rw [hm] at hk; dsimp only [gmTree] at hk
            exact ⟨c0, by simp, hk⟩
          · have hk := match_keeps_pos c fa q' nd hgc hpos
            rw [hm] at hk; dsimp only [gmTree] at hk
            exact ⟨c0, by simp, hk⟩
          · rcases hml : matchList cs fa with ⟨cs0, e0⟩ | ⟨cs0, p0, iv0, k0⟩ | _ <;>
              dsimp only [gmlTree] <;> exact ⟨c, by simp, hgc⟩
      | succ j' =>
          have hcj' : cs[j']? = some cj := by simpa using hcj
          rcases hm : matchGo c fa with ⟨c0, e0⟩ | ⟨c0, p0, iv0, k0⟩ | _ <;> dsimp only [gmlTree]
          · exact ⟨cj, by simpa using hcj', hg⟩
          · exact ⟨cj, by simpa using hcj', hg⟩
          · rcases matchList_keeps_pos cs fa j' q' cj nd hcj' hg hpos with ⟨c', hc', hg'⟩
            rcases hml : matchList cs fa with ⟨cs0, e0⟩ | ⟨cs0, p0, iv0, k0⟩ | _ <;>
              rw [hml] at hc' <;> dsimp only [gmlTree] at hc' ⊢ <;>
              exact ⟨c', by simpa using hc', hg'⟩

end

theorem parseValueAt_keeps :
    ∀ (p : List Nat) (n : Node) (q : List Nat) (v : Str) (nd : Node),
      getAt n q = some nd → isGroupB nd = false → p ≠ q →
      getAt (parseValueAt n p v).fst q = some nd
  | [], n, q, v, nd, hq, hgrp, hpq => by
      cases n with
      | group val cs => simpa [parseValueAt, nodeParseValue] using hq
      | flag m kk ee ko mtd =>
          cases q with
          | nil => exact absurd rfl hpq
          | cons j q' => simp [getAt] at hq
      | valueFlag m ee ko mtd v0 =>
          cases q with
          | nil => exact absurd rfl hpq
          | cons j q' => simp [getAt] at hq
      | mapFlag nm m mp ee ko mtd v0 =>
          cases q with
          | nil => exact absurd rfl hpq
          | cons j q' => simp [getAt] at hq
      | positional ko mtd rdy v0 =>
          cases q with
          | nil => exact absurd rfl hpq
          | cons j q' => simp [getAt] at hq
      | mapPositional nm mp ko mtd rdy v0 =>
          cases q with
          | nil => exact absurd rfl hpq
          | cons j q' => simp [getAt] at hq
      | positionalList ko mtd rdy vs =>
          cases q with
          | nil => exact absurd rfl hpq
          | cons j q' => simp [getAt] at hq
  | i :: p', n, q, v, nd, hq, hgrp, hpq => by
      cases n with
      | flag m kk ee ko mtd => simpa [parseValueAt] using hq
      | valueFlag m ee ko mtd v0 => simpa [parseValueAt] using hq
      | mapFlag nm m mp ee ko mtd v0 => simpa [parseValueAt] using hq
      | positional ko mtd rdy v0 => simpa [parseValueAt] using hq
      | mapPositional nm mp ko mtd rdy v0 => simpa [parseValueAt] using hq
      | positionalList ko mtd rdy vs => simpa [parseValueAt] using hq
      | group val cs =>
          cases q with
          | nil =>
              obtain rfl : Node.group val cs = nd := by simpa [getAt] using hq
              simp [isGroupB] at hgrp
          | cons j q' =>
              rw [getAt] at hq
              rcases hcj : cs[j]? with _ | cj
              · rw [hcj] at hq; simp at hq
              · rw [hcj] at hq
                dsimp only at hq
                rw [parseValueAt]
                rcases hci : cs[i]? with _ | ci
                · simpa [getAt, hcj] using hq
                · dsimp only
                  rw [getAt]
                  by_cases hij : i = j
                  · subst hij
                    have hii : i < cs.length := by
                      rcases List.getElem?_eq_some.mp hci with ⟨hlt, _⟩
                      exact hlt
                    rw [List.getElem?_set_self hii]
                    dsimp only
                    obtain rfl : ci = cj := by
                      have := hci.symm.trans hcj
                      simpa using this
                    have hpq' : p' ≠ q' := fun he => hpq (by rw [he])
                    exact parseValueAt_keeps p' ci q' v nd hq hgrp hpq'
                  · rw [List.getElem?_set_ne hij, hcj]
                    exact hq

theorem flagsSnapshotL_set :
    ∀ (cs : List Node) (i : Nat) (c c' : Node), cs[i]? = some c →
      flagsSnapshot c' = flagsSnapshot c →
      flagsSnapshotL (cs.set i c') = flagsSnapshotL cs
  | [], i, c, c', h, _ => by simp at h
  | d :: ds, 0, c, c', h, hs => by
      have hdc : d = c := by simpa using h
      simp [flagsSnapshotL, hs, hdc]
  | d :: ds, i + 1, c, c', h, hs => by
      have h' : ds[i]? = some c := by simpa using h
      simp [flagsSnapshotL, flagsSnapshotL_set ds i c c' h' hs]

theorem parseValueAt_keeps_flags :
    ∀ (p : List Nat) (n : Node) (v : Str) (nd : Node),
      getAt n p = some nd → isPosFamB nd = true →
      flagsSnapshot (parseValueAt n p v).fst = flagsSnapshot n
  | [], n, v, nd, hq, hpos => by
      cases n with
      | flag m kk ee ko mtd =>
          obtain rfl : Node.flag m kk ee ko mtd = nd := by simpa [getAt] using hq
          simp [isPosFamB] at hpos
      | valueFlag m ee ko mtd v0 =>
          obtain rfl : Node.valueFlag m ee ko mtd v0 = nd := by simpa [getAt] using hq
          simp [isPosFamB] at hpos
      | mapFlag nm m mp ee ko mtd v0 =>
          obtain rfl : Node.mapFlag nm m mp ee ko mtd v0 = nd := by simpa [getAt] using hq
          simp [isPosFamB] at hpos
      | group val cs =>
          obtain rfl : Node.group val cs = nd := by simpa [getAt] using hq
          simp [isPosFamB] at hpos
      | positional ko mtd rdy v0 => simp [parseValueAt, nodeParseValue, flagsSnapshot]
      | mapPositional nm mp ko mtd rdy v0 =>
          rcases hlk : lookupMap mp v with _ | t <;>
            simp [parseValueAt, nodeParseValue, hlk, flagsSnapshot]
      | positionalList ko mtd rdy vs => simp [parseValueAt, nodeParseValue, flagsSnapshot]
  | i :: p', n, v, nd, hq, hpos => by
      cases n with
      | flag m kk ee ko mtd => simp [getAt] at hq
      | valueFlag m ee ko mtd v0 => simp [getAt] at hq
      | mapFlag nm m mp ee ko mtd v0 => simp [getAt] at hq
      | positional ko mtd rdy v0 => simp [getAt] at hq
      | mapPositional nm mp ko mtd rdy v0 => simp [getAt] at hq
      | positionalList ko mtd rdy vs => simp [getAt] at hq
      | group val cs =>
          rw [getAt] at hq
          rcases hci : cs[i]? with _ | ci
          · rw [hci] at hq; simp at hq
          · rw [hci] at hq
            dsimp only at hq
            rw [parseValueAt, hci]
            dsimp only
            rw [flagsSnapshot]
            exact flagsSnapshotL_set cs i ci _ hci
              (parseValueAt_keeps_flags p' ci v nd hq hpos)

theorem shortCluster_keeps :
    ∀ (chars : List Char) (cfg : Config) (root : Node) (rest : List Str)
      (q : List Nat) (ko m : Bool) (v : Str),
      getAt root q = some (.positional ko m false v) →
      getAt (shortCluster cfg root chars rest).fst q = some (.positional ko m false v)
  | [], cfg, root, rest, q, ko, m, v, hq => by simpa [shortCluster] using hq
  | c :: cs, cfg, root, rest, q, ko, m, v, hq => by
      rw [shortCluster]
      rcases hm : matchGo root (.short c) with ⟨r', e⟩ | ⟨r', p, iv, k⟩ | _ <;> dsimp only
      · have hk := match_keeps_pos root (.short c) q _ hq (by simp [isPosFamB])
        rw [hm] at hk
        exact hk
      · have hq' : getAt r' q = some (.positional ko m false v) := by
          have hk := match_keeps_pos root (.short c) q _ hq (by simp [isPosFamB])
          rw [hm] at hk
          exact hk
        rcases match_hit_flagFam root (.short c) r' p iv k hm with ⟨nd, hgp, hf⟩
        have hpq : p ≠ q := by
          intro he
          rw [he, hq'] at hgp
          obtain rfl : Node.positional ko m false v = nd := by simpa using hgp
          simp [isFlagFamB] at hf
        cases iv with
        | false =>
            rw [if_neg (by simp)]
            cases k with
            | true => rw [if_pos rfl]; exact hq'
            | false => rw [if_neg (by simp)]; exact shortCluster_keeps cs cfg r' rest q ko m v hq'
        | true =>
            rw [if_pos rfl]
            cases hemp : cs.isEmpty with
            | true =>
                rw [if_pos rfl]
                cases rest with
                | nil => exact hq'
                | cons v2 rest2 =>
                    dsimp only
                    cases hsep : cfg.allowSeparateShortValue with
                    | false => simp only [Bool.false_eq_true, if_false]; exact hq'
                    | true =>
                        simp only [if_true]
                        have hk := parseValueAt_keeps p r' q v2 _ hq' (by simp [isGroupB]) hpq
                        rcases hpv : parseValueAt r' p v2 with ⟨r'', _ | e⟩ <;>
                          rw [hpv] at hk <;> dsimp only at hk <;> dsimp only <;> exact hk
            | false =>
                rw [if_neg (by simp)]
                cases hjoin : cfg.allowJoinedShortValue with
                | false => simp only [Bool.false_eq_true, if_false]; exact hq'
                | true =>
                    simp only [if_true]
                    have hk := parseValueAt_keeps p r' q cs _ hq' (by simp [isGroupB]) hpq
                    rcases hpv : parseValueAt r' p cs with ⟨r'', _ | e⟩ <;>
                      rw [hpv] at hk <;> dsimp only at hk <;> dsimp only <;> exact hk
      · exact hq



theorem longBranch_keeps (cfg : Config) (root : Node) (chunk : Str) (rest : List Str)
    (q : List Nat) (ko m : Bool) (v : Str)
    (hq : getAt root q = some (.positional ko m false v)) :
    getAt (longBranch cfg root chunk rest).fst q = some (.positional ko m false v) := by
  rw [longBranch]
  generalize (chunk.drop cfg.longPfx.length) = ac
  generalize (if cfg.longSep.isEmpty then (Option.none : Option Nat)
    else findSub ac cfg.longSep) = sep
  generalize (match sep with
    | some i => ac.take i
    | Option.none => ac) = arg
  rcases hm : matchGo root (.long arg) with ⟨r', e⟩ | ⟨r', p, iv, k⟩ | _ <;> dsimp only
  · have hk := match_keeps_pos root (.long arg) q _ hq (by simp [isPosFamB])
    rw [hm] at hk
    exact hk
  · have hq' : getAt r' q = some (.positional ko m false v) := by
      have hk := match_keeps_pos root (.long arg) q _ hq (by simp [isPosFamB])
      rw [hm] at hk
      exact hk
    rcases match_hit_flagFam root (.long arg) r' p iv k hm with ⟨nd, hgp, hf⟩
    have hpq : p ≠ q := by
      intro he
      rw [he, hq'] at hgp
      obtain rfl : Node.positional ko m false v = nd := by simpa using hgp
      simp [isFlagFamB] at hf
    cases iv with
    | true =>
        rw [if_pos rfl]
        rcases sep with _ | i <;> dsimp only
        · cases rest with
          | nil => exact hq'
          | cons v2 rest2 =>
              dsimp only
              cases hsv : cfg.allowSeparateLongValue with
              | false => rw [if_neg (by simp)]; exact hq'
              | true =>
                  rw [if_pos rfl]
                  have hk := parseValueAt_keeps p r' q v2 _ hq' (by simp [isGroupB]) hpq
                  rcases hpv : parseValueAt r' p v2 with ⟨r'', _ | e⟩ <;>
                    rw [hpv] at hk <;> dsimp only at hk <;> dsimp only <;> exact hk
        · cases hjv : cfg.allowJoinedLongValue with
          | false => rw [if_neg (by simp)]; exact hq'
          | true =>
              rw [if_pos rfl]
              have hk := parseValueAt_keeps p r' q (ac.drop (i + cfg.longSep.length)) _
                hq' (by simp [isGroupB]) hpq
              rcases hpv : parseValueAt r' p (ac.drop (i + cfg.longSep.length)) with
                ⟨r'', _ | e⟩ <;> rw [hpv] at hk <;> dsimp only at hk <;> dsimp only <;> exact hk
    | false =>
        rw [if_neg (by simp)]
        rcases sep with _ | i <;> dsimp only <;> exact hq'
  · exact hq

theorem posBranch_keeps (root : Node) (chunk : Str)
    (q : List Nat) (ko m : Bool) (v : Str)
    (hq : getAt root q = some (.positional ko m false v)) :
    getAt (posBranch root chunk).fst q = some (.positional ko m false v) := by
  rw [posBranch]
  rcases hg : getNextPositional root with _ | p <;> dsimp only
  · exact hq
  · have hrdy := gnp_ready root p hg
    have hpq : p ≠ q := by
      intro he
      rw [he] at hrdy
      simp [readyAt, hq, nodeReady] at hrdy
    have hk := parseValueAt_keeps p root q chunk _ hq (by simp [isGroupB]) hpq
    rcases hpv : parseValueAt root p chunk with ⟨r', _ | e⟩ <;>
      rw [hpv] at hk <;> dsimp only at hk <;> dsimp only <;> exact hk

theorem parseLoop_keeps :
    ∀ (toks : List Str) (cfg : Config) (root : Node) (term : Bool)
      (q : List Nat) (ko m : Bool) (v : Str),
      getAt root q = some (.positional ko m false v) →
      getAt (parseLoop cfg root term toks).fst q = some (.positional ko m false v)
  | [], cfg, root, term, q, ko, m, v, hq => by
      rw [parseLoop]
      cases h : MatchedQ root with
      | true => rw [if_pos (by simp [h])]; exact hq
      | false => rw [if_neg (by simp [h])]; exact hq
  | chunk :: rest, cfg, root, term, q, ko, m, v, hq => by
      rw [parseLoop]
      by_cases h1 : (!term && chunk == cfg.terminator) = true
      · rw [if_pos h1]
        exact parseLoop_keeps rest cfg root true q ko m v hq
      · rw [if_neg h1]
        by_cases h2 : (!term && longTokenQ cfg chunk) = true
        · rw [if_pos h2]
          have hk := longBranch_keeps cfg root chunk rest q ko m v hq
          rcases hlb : longBranch cfg root chunk rest with ⟨r', lres⟩
          rw [hlb] at hk
          dsimp only at hk
          cases lres with
          | err e => exact hk
          | kicked b =>
              cases b with
              | false => exact hk
              | true => cases rest <;> dsimp only <;> exact hk
          | cont b =>
              cases b with
              | false => exact parseLoop_keeps rest cfg r' false q ko m v hk
              | true =>
                  cases rest with
                  | nil => exact hk
                  | cons v2 rest2 =>
                      dsimp only
                      exact parseLoop_keeps rest2 cfg r' false q ko m v hk
        · rw [if_neg h2]
          by_cases h3 : (!term && shortTokenQ cfg chunk) = true
          · rw [if_pos h3]
            have hk := shortCluster_keeps (chunk.drop cfg.shortPfx.length) cfg root rest q ko m v hq
            rcases hsc : shortCluster cfg root (chunk.drop cfg.shortPfx.length) rest with ⟨r', sres⟩
            rw [hsc] at hk
            dsimp only at hk
            cases sres with
            | err e => exact hk
            | kicked => exact hk
            | cont b =>
                cases b with
                | false => exact parseLoop_keeps rest cfg r' false q ko m v hk
                | true =>
                    cases rest with
                    | nil => exact hk
                    | cons v2 rest2 =>
                        dsimp only
                        exact parseLoop_keeps rest2 cfg r' false q ko m v hk
          · rw [if_neg h3]
            have hk := posBranch_keeps root chunk q ko m v hq
            rcases hpb : posBranch root chunk with ⟨r', lres⟩
            rw [hpb] at hk
            dsimp only at hk
            cases lres with
            | err e => exact hk
            | kicked b => exact hk
            | cont b => exact parseLoop_keeps rest cfg r' term q ko m v hk

theorem readyAt_elim (n : Node) (p : List Nat) (h : readyAt n p = true) :
    ∃ nd, getAt n p = some nd ∧ isPosFamB nd = true ∧ nodeReady nd = true := by
  rw [readyAt] at h
  rcases hg : getAt n p with _ | nd
  · rw [hg] at h; simp at h
  · rw [hg] at h
    dsimp only at h
    exact ⟨nd, rfl, by simpa using h⟩

theorem posBranch_flags (root : Node) (chunk : Str) :
    flagsSnapshot (posBranch root chunk).fst = flagsSnapshot root := by
  rw [posBranch]
  rcases hg : getNextPositional root with _ | p
  · rfl
  · dsimp only
    have hrdy := gnp_ready root p hg
    rcases readyAt_elim root p hrdy with ⟨nd, hgp, hpos, _⟩
    have hk := parseValueAt_keeps_flags p root chunk nd hgp hpos
    rcases hpv : parseValueAt root p chunk with ⟨r', _ | e⟩ <;>
      dsimp only at hk ⊢ <;> rw [hpv] at hk <;> dsimp only at hk <;> exact hk

theorem parseLoop_true_flags :
    ∀ (ts : List Str) (cfg : Config) (root : Node),
      flagsSnapshot (parseLoop cfg root true ts).fst = flagsSnapshot root
  | [], cfg, root => by
      rw [parseLoop]
      cases h : MatchedQ root with
      | true => rw [if_pos (by simp [h])]
      | false => rw [if_neg (by simp [h])]
  | chunk :: rest, cfg, root => by
      rw [parseLoop]
      rw [if_neg (by simp), if_neg (by simp), if_neg (by simp)]
      have hflags := posBranch_flags root chunk
      rcases hpb : posBranch root chunk with ⟨r', lres⟩
      rw [hpb] at hflags
      dsimp only at hflags
      cases lres with
      | err e => exact hflags
      | kicked b => exact hflags
      | cont b =>
          dsimp only
          rw [parseLoop_true_flags rest cfg r']
          exact hflags

theorem parseLoop_terminator_step (cfg : Config) (root : Node) (ts : List Str) :
    parseLoop cfg root false (cfg.terminator :: ts) = parseLoop cfg root true ts := by
  rw [parseLoop]
  rw [if_pos (by simp)]

/-- Indexing a reset child list resets the indexed child. -/
theorem resetList_get : ∀ (cs : List Node) (i : Nat),
    (resetList cs)[i]? = (cs[i]?).map resetMatched
  | [], i => by simp [resetList]
  | c :: cs, 0 => by simp [resetList]
  | c :: cs, i + 1 => by simpa [resetList] using resetList_get cs i

/-- Dereferencing after ResetMatched reaches the reset of the original
node: ResetMatched changes no tree structure. -/
theorem getAt_reset : ∀ (q : List Nat) (n : Node),
    getAt (resetMatched n) q = (getAt n q).map resetMatched
  | [], n => by simp [getAt]
  | i :: q, .group val cs => by
      rw [resetMatched, getAt, resetList_get]
      rcases h : cs[i]? with _ | c
      · simp [getAt, h]
      · dsimp only [Option.map]
        rw [getAt, h]
        dsimp only
        exact getAt_reset q c
  | i :: q, .flag m k ee ko mtd => by simp [resetMatched, getAt]
  | i :: q, .valueFlag m ee ko mtd v => by simp [resetMatched, getAt]
  | i :: q, .mapFlag nm m mp ee ko mtd v => by simp [resetMatched, getAt]
  | i :: q, .positional ko mtd rdy v => by simp [resetMatched, getAt]
  | i :: q, .mapPositional nm mp ko mtd rdy v => by simp [resetMatched, getAt]
  | i :: q, .positionalList ko mtd rdy vs => by simp [resetMatched, getAt]

/-! ## The claims -/

/-- Claim C1 (corrected claim, counterexample): with KickOut set on the
flag `foo` itself — the claim's literal reading — parsing
{"--foo", "green", "--bar"} stops immediately after "--foo": the returned
iterator points at "green" (not at "--bar"), and the positional `sub` is
never matched (its stored value is still the default "").  So the claimed
scenario outcome is false as stated. -/
theorem kickout_on_foo_stops_at_green :
    (ParseArgs defaultConfig c1TreeBad ["--foo".data, "green".data, "--bar".data]).snd
        = .ok ["green".data, "--bar".data]
    ∧ (ParseArgs defaultConfig c1TreeBad ["--foo".data, "green".data, "--bar".data]).snd
        ≠ .ok ["--bar".data]
    ∧ matchedAt (ParseArgs defaultConfig c1TreeBad ["--foo".data, "green".data, "--bar".data]).fst
        [2] = false
    ∧ valueAt (ParseArgs defaultConfig c1TreeBad ["--foo".data, "green".data, "--bar".data]).fst
        [2] = some [] :=
  ⟨by decide, by decide, by decide, by decide⟩

/-- Claim C1 (amended): for every configuration, declaration tree and
token sequence, when a token's dispatch ends in a kick-out — a long-flag
match, a non-value short-flag match, or a positional, each reporting
`kicked` exactly when the KickOut test on the matched node fired —
scanning stops immediately and the iterator position immediately after
the current token (plus the separate value token, when one was consumed)
is returned, with validation never consulted (conjuncts 1-3, one per
dispatch branch of the loop); the one exception is a value-accepting flag
matched inside a short-flag cluster, which never kicks out because the
cluster break precedes the KickOut test (conjunct 4, general, plus an
end-to-end run where the scan provably continues past such a flag).  In
the library's own sub-parser scenario the KickOut flag sits on the
positional `sub` (not on the flag `foo`): parsing {"--foo", "green"} ++ rest
consumes up through "green", matches `foo` and `sub` (value "green"), and
returns an iterator pointing at the head of `rest` (e.g. "--bar") — for
every remaining token list and every validator of the extra sub-group,
including CareTooMuch, whose presence makes the final tree fail
validation, showing validation is skipped on kick-out; and both stages of
the library's kick-out chain test return the expected suffixes. -/
theorem kickout_returns_iterator_after_match :
    (∀ (cfg : Config) (root root' : Node) (term : Bool) (chunk : Str) (rest : List Str)
        (tn : Bool),
      (!term && chunk == cfg.terminator) = false →
      (!term && longTokenQ cfg chunk) = true →
      longBranch cfg root chunk rest = (root', .kicked tn) →
      parseLoop cfg root term (chunk :: rest) = (root', .ok (if tn then rest.tail else rest)))
    ∧ (∀ (cfg : Config) (root root' : Node) (term : Bool) (chunk : Str) (rest : List Str),
      (!term && chunk == cfg.terminator) = false →
      (!term && longTokenQ cfg chunk) = false →
      (!term && shortTokenQ cfg chunk) = true →
      shortCluster cfg root (chunk.drop cfg.shortPfx.length) rest = (root', .kicked) →
      parseLoop cfg root term (chunk :: rest) = (root', .ok rest))
    ∧ (∀ (cfg : Config) (root root' : Node) (term : Bool) (chunk : Str) (rest : List Str)
        (tn : Bool),
      (!term && chunk == cfg.terminator) = false →
      (!term && longTokenQ cfg chunk) = false →
      (!term && shortTokenQ cfg chunk) = false →
      posBranch root chunk = (root', .kicked tn) →
      parseLoop cfg root term (chunk :: rest) = (root', .ok rest))
    ∧ (∀ (cfg : Config) (root root' : Node) (c : Char) (cs : List Char) (rest : List Str)
        (p : List Nat) (k : Bool),
      matchGo root (.short c) = .hit root' p true k →
      (shortCluster cfg root (c :: cs) rest).snd ≠ .kicked)
    ∧ (∀ (v : Validator) (rest : List Str),
      (ParseArgs defaultConfig (c1Tree v) ("--foo".data :: "green".data :: rest)).snd = .ok rest
      ∧ matchedAt
          (ParseArgs defaultConfig (c1Tree v) ("--foo".data :: "green".data :: rest)).fst [0]
          = true
      ∧ matchedAt
          (ParseArgs defaultConfig (c1Tree v) ("--foo".data :: "green".data :: rest)).fst [2]
          = true
      ∧ valueAt
          (ParseArgs defaultConfig (c1Tree v) ("--foo".data :: "green".data :: rest)).fst [2]
          = some "green".data)
    ∧ MatchedQ (ParseArgs defaultConfig (c1Tree .careTooMuch)
        ["--foo".data, "green".data, "--bar".data]).fst = false
    ∧ ((ParseArgs defaultConfig c1ChainA
          ["-a".data, "-b".data, "--foo".data, "-ca".data, "--bar".data, "barvalue".data,
           "-db".data]).snd
        = .ok ["-ca".data, "--bar".data, "barvalue".data, "-db".data]
      ∧ (ParseArgs defaultConfig c1ChainB
          ["-ca".data, "--bar".data, "barvalue".data, "-db".data]).snd = .ok ["-db".data])
    ∧ ((ParseArgs defaultConfig c1ShortVal ["-fx".data, "-z".data]).snd = .ok []
      ∧ (ParseArgs defaultConfig c1ShortVal ["-fx".data, "-z".data]).snd ≠ .ok ["-z".data]
      ∧ matchedAt (ParseArgs defaultConfig c1ShortVal ["-fx".data, "-z".data]).fst [1] = true
      ∧ valueAt (ParseArgs defaultConfig c1ShortVal ["-fx".data, "-z".data]).fst [0]
          = some "x".data) := by
  refine ⟨?_, ?_, ?_, ?_, fun v rest => ⟨rfl, rfl, rfl, rfl⟩, by decide,
    ⟨by decide, by decide⟩, by decide, by decide, by decide, by decide⟩
  · intro cfg root root' term chunk rest tn h1 h2 hlb
    rw [parseLoop, if_neg (by simp [h1]), if_pos h2]
    cases tn with
    | false =>
        rw [hlb]
        dsimp only
        rw [if_neg (by simp)]
    | true =>
        rw [hlb]
        dsimp only
        cases rest with
        | nil => simp
        | cons v2 rest2 => simp
  · intro cfg root root' term chunk rest h1 h2 h3 hsc
    rw [parseLoop, if_neg (by simp [h1]), if_neg (by simp [h2]), if_pos h3, hsc]
  · intro cfg root root' term chunk rest tn h1 h2 h3 hpb
    rw [parseLoop, if_neg (by simp [h1]), if_neg (by simp [h2]), if_neg (by simp [h3]), hpb]
  · intro cfg root root' c cs rest p k hm
    rw [shortCluster, hm]
    dsimp only
    rw [if_pos rfl]
    cases hemp : cs.isEmpty with
    | true =>
        rw [if_pos rfl]
        cases rest with
        | nil => simp
        | cons v2 r2 =>
            dsimp only
            cases hsv : cfg.allowSeparateShortValue with
            | false => rw [if_neg (by simp)]; simp
            | true =>
                rw [if_pos rfl]
                rcases hpv : parseValueAt root' p v2 with ⟨r'', _ | e⟩ <;> dsimp only <;> simp
    | false =>
        rw [if_neg (by simp)]
        cases hjv : cfg.allowJoinedShortValue with
        | false => rw [if_neg (by simp)]; simp
        | true =>
            rw [if_pos rfl]
            rcases hpv : parseValueAt root' p cs with ⟨r'', _ | e⟩ <;> dsimp only <;> simp

/-- Claim C2 (corrected claim, counterexample): a sub-group that fails its
own validator (CareTooMuch) two levels below the root, behind a DontCare
group, does not make ParseArgs raise ValidationError: the root validator
AllChildGroups only consults immediate child groups. -/
theorem deep_failing_subgroup_not_detected :
    (ParseArgs defaultConfig c2Tree []).snd = .ok []
    ∧ getAt c2Tree [0, 0] = some (.group .careTooMuch [])
    ∧ MatchedQ (.group .careTooMuch []) = false :=
  ⟨by decide, rfl, by decide⟩

/-- Claim C2 (amended): for every scan that reaches the end of the token
list, ParseArgs raises ValidationError exactly when the root group's
validator returns false; and the root validator AllChildGroups fails
exactly when some immediate child of the root that is itself a Group fails
its own validator (deeper sub-groups are consulted only insofar as the
intermediate validators consult them). -/
theorem validation_error_iff_root_validator_fails :
    (∀ (cfg : Config) (v : Validator) (cs : List Node) (term : Bool),
      (parseLoop cfg (.group v cs) term []).snd = .err (.validationError msgValidation)
        ↔ validate v cs = false)
    ∧ (∀ cs : List Node,
        validate .allChildGroups cs = cs.all (fun c => !isGroupB c || MatchedQ c)) := by
  constructor
  · intro cfg v cs term
    rw [parseLoop]
    cases h : MatchedQ (Node.group v cs) with
    | true => rw [if_pos (by simp [h])]; simp [validate, h]
    | false => rw [if_neg (by simp [h])]; simp [validate, h]
  · intro cs
    show MatchedQ (.group .allChildGroups cs) = _
    rw [MatchedQ]
    exact groupsMatched_eq_all cs

/-- Claim C3: for a long-flag token matching a value-accepting node with
no inline value, the checks run in this order: stream exhausted →
ParseError "requires an argument but received none"; separate long values
disallowed → ParseError "...separate argument..."; otherwise the next
whole token is consumed as the value.  In particular, with separate long
values disallowed and the flag as the last token, the exhaustion error is
the one raised. -/
theorem long_separate_value_error_order :
    (ParseArgs c3Cfg c3Tree ["--foo".data]).snd
        = .err (.parseError (msgRequiresArg "foo".data))
    ∧ (∀ (v : Str) (rest : List Str),
        (ParseArgs c3Cfg c3Tree ("--foo".data :: v :: rest)).snd
          = .err (.parseError (msgSeparate "foo".data)))
    ∧ (∀ v : Str,
        (ParseArgs defaultConfig c3Tree ["--foo".data, v]).snd = .ok []
        ∧ valueAt (ParseArgs defaultConfig c3Tree ["--foo".data, v]).fst [0] = some v) :=
  ⟨by decide, fun v rest => rfl, fun v => ⟨rfl, rfl⟩⟩

/-- Claim C4: in a short-flag cluster, a character matching a
value-accepting flag takes the non-empty remainder of the token as its
joined value and ends the scan of that token ("-fb" with value-accepting f
gives f the value "b" and never evaluates b as a flag); with an empty
remainder the next whole token is consumed as a separate value; and for
non-value flags f and b, "-fb" matches both. -/
theorem short_cluster_joined_value_semantics :
    (valueAt (ParseArgs defaultConfig c4TreeVal ["-fb".data]).fst [0] = some "b".data
      ∧ matchedAt (ParseArgs defaultConfig c4TreeVal ["-fb".data]).fst [0] = true
      ∧ matchedAt (ParseArgs defaultConfig c4TreeVal ["-fb".data]).fst [1] = false
      ∧ (ParseArgs defaultConfig c4TreeVal ["-fb".data]).snd = .ok [])
    ∧ (matchedAt (ParseArgs defaultConfig c4TreeBool ["-fb".data]).fst [0] = true
      ∧ matchedAt (ParseArgs defaultConfig c4TreeBool ["-fb".data]).fst [1] = true
      ∧ (ParseArgs defaultConfig c4TreeBool ["-fb".data]).snd = .ok [])
    ∧ (∀ v : Str,
        valueAt (ParseArgs defaultConfig c4TreeVal ["-f".data, v]).fst [0] = some v
        ∧ (ParseArgs defaultConfig c4TreeVal ["-f".data, v]).snd = .ok []) :=
  ⟨⟨by decide, by decide, by decide, by decide⟩,
   ⟨by decide, by decide, by decide⟩,
   fun v => ⟨rfl, rfl⟩⟩

/-- Claim C5: a token equal to the configured terminator (while not yet
terminated) is consumed without matching any node, and every subsequent
token of the scan is dispatched to positionals: in terminated state the
scan never touches any flag-family leaf (their matched flags and stored
values are untouched, for every configuration, tree and token list, flag
syntax or not); and in the spec's scenario {"--foo","bar","--","baz","--qux"}
the tokens after "--" land in the positional list even though "--qux"
resembles a long flag. -/
theorem terminator_forces_positional_dispatch :
    (∀ (cfg : Config) (root : Node) (ts : List Str),
      flagsSnapshot (parseLoop cfg root true ts).fst = flagsSnapshot root)
    ∧ (∀ (cfg : Config) (root : Node) (ts : List Str),
      parseLoop cfg root false (cfg.terminator :: ts) = parseLoop cfg root true ts)
    ∧ ((ParseArgs defaultConfig c5Tree
          ["--foo".data, "bar".data, "--".data, "baz".data, "--qux".data]).snd = .ok []
      ∧ valueAt (ParseArgs defaultConfig c5Tree
          ["--foo".data, "bar".data, "--".data, "baz".data, "--qux".data]).fst [0]
          = some "bar".data
      ∧ valuesAt (ParseArgs defaultConfig c5Tree
          ["--foo".data, "bar".data, "--".data, "baz".data, "--qux".data]).fst [1]
          = some ["baz".data, "--qux".data]) :=
  ⟨fun cfg root ts => parseLoop_true_flags ts cfg root,
   fun cfg root ts => parseLoop_terminator_step cfg root ts,
   by decide, by decide, by decide⟩

/-- Claim C6: the Xor validator holds iff exactly one immediate child is
matched; AllOrNone holds iff zero or all immediate children are matched;
MatchedChildren counts immediate children by their own Matched(); and an
immediate child that is itself a Group contributes to the count according
to its own validator's result — which is how nested validation composes
upward. -/
theorem xor_allornone_validator_semantics :
    (∀ cs : List Node, MatchedQ (.group .xor cs) = true ↔ matchedCount cs = 1)
    ∧ (∀ cs : List Node, MatchedQ (.group .allOrNone cs) = true ↔
        (matchedCount cs = 0 ∨ matchedCount cs = cs.length))
    ∧ (∀ cs : List Node, matchedCount cs = cs.countP (fun c => MatchedQ c))
    ∧ (∀ (v : Validator) (gcs cs : List Node),
        matchedCount (.group v gcs :: cs)
          = (if validate v gcs then 1 else 0) + matchedCount cs) := by
  refine ⟨fun cs => ?_, fun cs => ?_, matchedCount_eq_countP, fun v gcs cs => rfl⟩
  · rw [MatchedQ]
    simp
  · rw [MatchedQ]
    simp [Bool.or_eq_true]
    omega

/-- Claim C7: at the start of every ParseArgs call the matched flag of
every descendant is reset to false while stored values are left unchanged
(parsing an empty token list leaves the tree exactly reset), so a parser
instance is reusable: after parsing {"-f"} and then {} on the result, the
flag's matched state is false again. -/
theorem parseargs_resets_matched_not_values :
    (∀ (cfg : Config) (root : Node), (ParseArgs cfg root []).fst = resetMatched root)
    ∧ (∀ root : Node, allUnmatchedB (resetMatched root) = true)
    ∧ (∀ root : Node, valuesOf (resetMatched root) = valuesOf root)
    ∧ (matchedAt (ParseArgs defaultConfig c7Tree [['-', 'f']]).fst [0] = true
      ∧ matchedAt
          (ParseArgs defaultConfig (ParseArgs defaultConfig c7Tree [['-', 'f']]).fst []).fst [0]
          = false
      ∧ (ParseArgs defaultConfig (ParseArgs defaultConfig c7Tree [['-', 'f']]).fst []).snd
          = .ok []) := by
  refine ⟨fun cfg root => ?_, reset_unmatched, reset_values, by decide, by decide, by decide⟩
  rw [ParseArgs, parseLoop]
  cases h : MatchedQ (resetMatched root) with
  | true => rw [if_pos (by simp [h])]
  | false => rw [if_neg (by simp [h])]

/-- Claim C8: when a MapFlag's (or MapPositional's) value text converts to
a key absent from the backing map, ParseValue raises MapError — a
constructor distinct from ParseError — and the node's stored value is left
unchanged; at parse level, feeding "--m orange" to a MapFlag backed by a
map without "orange" aborts with MapError and keeps the stored default. -/
theorem map_lookup_miss_raises_maperror :
    (∀ (nm : Str) (mp : List (Str × Str)) (key : Str),
      lookupMap mp key = Option.none →
        (∀ (m : Matcher) (ee ko mtd : Bool) (v : Str),
          nodeParseValue (.mapFlag nm m mp ee ko mtd v) key
            = (.mapFlag nm m mp ee ko mtd v, some (.mapError (msgMapMiss key nm))))
        ∧ (∀ (ko mtd rdy : Bool) (v : Str),
          nodeParseValue (.mapPositional nm mp ko mtd rdy v) key
            = (.mapPositional nm mp ko mtd rdy v, some (.mapError (msgMapMiss key nm)))))
    ∧ (∀ a b : Str, Err.mapError a ≠ Err.parseError b)
    ∧ ((ParseArgs defaultConfig c8Tree ["--m".data, "orange".data]).snd
        = .err (.mapError (msgMapMiss "orange".data "m".data))
      ∧ valueAt (ParseArgs defaultConfig c8Tree ["--m".data, "orange".data]).fst [0]
        = some "def".data) := by
  refine ⟨fun nm mp key h => ⟨fun m ee ko mtd v => ?_, fun ko mtd rdy v => ?_⟩,
    fun a b hab => ?_, by decide, by decide⟩
  · rw [nodeParseValue, h]
  · rw [nodeParseValue, h]
  · cases hab

/-- Claim C9: a non-list positional that has consumed a value is never
offered a value again: Positional::ParseValue clears `ready` (and sets
`matched`); GetNextPositional only ever returns Ready positionals; and
across any later ParseArgs call on the same tree — any configuration, any
tokens — a positional with `ready = false` keeps `ready = false` and its
stored value unchanged (ResetMatched clears only `matched`, never
restoring `ready`). -/
theorem consumed_positional_never_ready_again :
    (∀ (ko m rdy : Bool) (val t : Str),
      nodeParseValue (.positional ko m rdy val) t = (.positional ko true false t, Option.none))
    ∧ (∀ (n : Node) (p : List Nat), getNextPositional n = some p → readyAt n p = true)
    ∧ (∀ (cfg : Config) (root : Node) (toks : List Str) (q : List Nat) (ko m : Bool) (v : Str),
        getAt root q = some (.positional ko m false v) →
        getAt (ParseArgs cfg root toks).fst q = some (.positional ko false false v)) := by
  refine ⟨fun ko m rdy val t => rfl, gnp_ready, fun cfg root toks q ko m v hq => ?_⟩
  rw [ParseArgs]
  refine parseLoop_keeps toks cfg (resetMatched root) false q ko false v ?_
  rw [getAt_reset q root, hq]
  rfl

/-- Claim C9 witness: in a parser whose first positional has already
consumed "x" (ready = false), parsing another token leaves it untouched:
still not ready, value still "x". -/
theorem consumed_positional_never_ready_again_witness :
    getAt (ParseArgs defaultConfig c9Tree ["y".data]).fst [0]
      = some (.positional false false false "x".data) :=
  (consumed_positional_never_ready_again).2.2 defaultConfig c9Tree ["y".data] [0]
    false true "x".data rfl

/-- Claim C10: a token matching a HelpFlag sets the flag's matched state
to true before the Help signal is thrown (the node carried by the thrown
state is already matched), so after a ParseArgs call aborted by Help the
flag's Matched() returns true — for any remaining tokens, via the long or
the short name. -/
theorem helpflag_sets_matched_before_throw :
    (∀ rest : List Str,
      (ParseArgs defaultConfig c10Tree ("--help".data :: rest)).snd = .err (.help "help".data)
      ∧ matchedAt (ParseArgs defaultConfig c10Tree ("--help".data :: rest)).fst [0] = true)
    ∧ (∀ rest : List Str,
      (ParseArgs defaultConfig c10Tree ("-h".data :: rest)).snd = .err (.help ['h'])
      ∧ matchedAt (ParseArgs defaultConfig c10Tree ("-h".data :: rest)).fst [0] = true)
    ∧ matchGo (.flag ⟨['h'], ["help".data]⟩ .help false false false) (.long "help".data)
        = .thrown (.flag ⟨['h'], ["help".data]⟩ .help false false true) (.help "help".data) :=
  ⟨fun _ => ⟨rfl, rfl⟩, fun _ => ⟨rfl, rfl⟩, rfl⟩
